import Mathlib

/-!
Shallow embedding of `dpkt/ip6.py` (IPv6 packet decode/encode with
extension-header chain, TLV option scanning, bit-packed sub-field
accessors and upper-layer checksum fix-up), together with theorems
settling the specification claims about it.

Byte strings are modelled as `List Nat` (each element a byte value);
Python's arbitrary-precision non-negative integers are modelled as `Nat`,
with Python's `x & ~m` for non-negative `x, m` rendered as `x - (x &&& m)`
(the two agree because `x &&& m` selects a subset of the bits of `x`).
Exceptions are modelled with `Except`: `struct.error` raised while
unpacking a too-short buffer is dpkt's `NeedData` (an `UnpackError`),
an out-of-range byte index raises `IndexError`, a missing attribute
raises `AttributeError`, and `struct.pack` with an out-of-range field
value raises `struct.error`.
-/

namespace DpktIP6

/-- Byte strings (`bytes` in Python): lists of byte values. -/
abbrev Bytes := List Nat

/-- Python exceptions that the embedded code can raise.  `fuelExhausted`
is an artifact of the fuel-based encoding of the two `while` loops; the
termination theorems show it is never returned when the fuel exceeds the
obvious bound. -/
inductive Err where
  | needData
  | indexError
  | attributeError
  | structError
  | fuelExhausted
deriving DecidableEq, Repr

/-- Big-endian 16-bit read of the two bytes at offset `i` (struct `>H`). -/
def rd16 (b : Bytes) (i : Nat) : Nat :=
  256 * b.getD i 0 + b.getD (i + 1) 0

/-- Big-endian 32-bit read of the four bytes at offset `i` (struct `>I`). -/
def rd32 (b : Bytes) (i : Nat) : Nat :=
  16777216 * b.getD i 0 + 65536 * b.getD (i + 1) 0 +
    256 * b.getD (i + 2) 0 + b.getD (i + 3) 0

/-- Big-endian byte encoding of an 8-bit value (struct `B`); `struct.pack`
raises `struct.error` when the value does not fit. -/
def packB (v : Nat) : Option Bytes :=
  if v < 256 then some [v] else none

/-- Big-endian byte encoding of a 16-bit value (struct `>H`). -/
def encH (v : Nat) : Bytes := [v / 256, v % 256]

/-- Guarded 16-bit encoding: `struct.pack` rejects values `≥ 2^16`. -/
def packH (v : Nat) : Option Bytes :=
  if v < 65536 then some (encH v) else none

/-- Big-endian byte encoding of a 32-bit value (struct `>I`). -/
def encI (v : Nat) : Bytes :=
  [v / 16777216, v / 65536 % 256, v / 256 % 256, v % 256]

/-- Guarded 32-bit encoding: `struct.pack` rejects values `≥ 2^32`. -/
def packI (v : Nat) : Option Bytes :=
  if v < 4294967296 then some (encI v) else none

/-- struct `16s`: a byte string is truncated or zero-padded to 16 bytes. -/
def pack16s (s : Bytes) : Bytes :=
  s.take 16 ++ List.replicate (16 - s.length) 0

/-- Python `x & ~m` for non-negative `x` and `m` (infinite two's
complement): clears exactly the bits of `m` that are set in `x`. -/
def pyAndNot (x m : Nat) : Nat := x - (x &&& m)

/-! ### Bit-packed sub-field accessors (`IP6.v/fc/flow`,
`IP6FragmentHeader.frag_off/m_flag`, `IP6RoutingHeader.sl_bits`) -/

/-- `IP6.v` getter: `self._v_fc_flow >> 28`. -/
def get_v (w : Nat) : Nat := w >>> 28

/-- `IP6.v` setter: `(self._v_fc_flow & ~0xf0000000) | (v << 28)`. -/
def set_v (w v : Nat) : Nat := pyAndNot w 0xf0000000 ||| (v <<< 28)

/-- `IP6.fc` getter: `(self._v_fc_flow >> 20) & 0xff`. -/
def get_fc (w : Nat) : Nat := (w >>> 20) &&& 0xff

/-- `IP6.fc` setter: `(self._v_fc_flow & ~0xff00000) | (v << 20)`. -/
def set_fc (w v : Nat) : Nat := pyAndNot w 0xff00000 ||| (v <<< 20)

/-- `IP6.flow` getter: `self._v_fc_flow & 0xfffff`. -/
def get_flow (w : Nat) : Nat := w &&& 0xfffff

/-- `IP6.flow` setter: `(self._v_fc_flow & ~0xfffff) | (v & 0xfffff)`. -/
def set_flow (w v : Nat) : Nat := pyAndNot w 0xfffff ||| (v &&& 0xfffff)

/-- `IP6FragmentHeader.frag_off` getter: `self.frag_off_resv_m >> 3`. -/
def get_frag_off (x : Nat) : Nat := x >>> 3

/-- `IP6FragmentHeader.frag_off` setter:
`(self.frag_off_resv_m & ~0xfff8) | (v << 3)`. -/
def set_frag_off (x v : Nat) : Nat := pyAndNot x 0xfff8 ||| (v <<< 3)

/-- `IP6FragmentHeader.m_flag` getter: `self.frag_off_resv_m & 1`. -/
def get_m_flag (x : Nat) : Nat := x &&& 1

/-- `IP6FragmentHeader.m_flag` setter:
`(self.frag_off_resv_m & ~0xfffe) | v`. -/
def set_m_flag (x v : Nat) : Nat := pyAndNot x 0xfffe ||| v

/-- `IP6RoutingHeader.sl_bits` getter: `self.rsvd_sl_bits & 0xffffff`. -/
def get_sl_bits (w : Nat) : Nat := w &&& 0xffffff

/-- `IP6RoutingHeader.sl_bits` setter:
`(self.rsvd_sl_bits & ~0xfffff) | (v & 0xfffff)`. -/
def set_sl_bits (w v : Nat) : Nat := pyAndNot w 0xfffff ||| (v &&& 0xfffff)

/-! ### One's-complement checksum -/

/-- Modelled from the spec: the big-endian 16-bit word sum underlying the
`dpkt.in_cksum_add` helper (the helper itself lives in `dpkt/dpkt.py`,
outside the given sources).  A trailing odd byte is taken as the high
half of a final zero-padded word, per the standard Internet checksum. -/
def sum16 : Bytes → Nat
  | [] => 0
  | [b] => b * 256
  | b0 :: b1 :: rest => (b0 * 256 + b1) + sum16 rest

/-- Modelled from the spec: `dpkt.in_cksum_add s buf` accumulates the
16-bit word sum of `buf` onto the running sum `s`. -/
def in_cksum_add (s : Nat) (buf : Bytes) : Nat := s + sum16 buf

/-- Modelled from the spec: `dpkt.in_cksum_done` folds the wraparound
carries into the low 16 bits and returns the one's complement
(`~s & 0xffff`, written via subtraction from `0xffff`). -/
def in_cksum_done (s : Nat) : Nat :=
  let s1 := (s >>> 16) + (s &&& 0xffff)
  let s2 := s1 + (s1 >>> 16)
  0xffff - (s2 &&& 0xffff)

/-! ### TLV options (`IP6OptsHeader.unpack` inner loop) -/

/-- An emitted TLV option record
(`{'type': ..., 'opt_length': ..., 'data': ...}`). -/
structure TLV where
  type : Nat
  opt_length : Nat
  data : Bytes
deriving DecidableEq, Repr

/-- The option-scanning `while` loop of `IP6OptsHeader.unpack`, walking
`data` while `index < bound` where `bound` is `self.length - 2`.
`data[index]` out of range raises `IndexError`.  `fuel` bounds the
number of iterations; since `index` grows by at least 1 per iteration,
any `fuel > bound - index` is enough (proved below). -/
def scanOpts (data : Bytes) (bound : Nat) : Nat → Nat → Except Err (List TLV)
  | 0, _ => .error .fuelExhausted
  | fuel + 1, index =>
    if index < bound then
      match data[index]? with
      | none => .error .indexError
      | some t =>
        if t = 0 then
          scanOpts data bound fuel (index + 1)
        else
          match data[index + 1]? with
          | none => .error .indexError
          | some l =>
            if t = 1 then
              scanOpts data bound fuel (index + l + 2)
            else
              match scanOpts data bound fuel (index + l + 2) with
              | .error e => .error e
              | .ok rest =>
                .ok (⟨t, l, (data.drop (index + 2)).take l⟩ :: rest)
    else .ok []

/-! ### Extension headers -/

/-- Decoded extension headers: one variant per concrete subclass of
`IP6ExtensionHeader` (`IP6HopOptsHeader` and `IP6DstOptsHeader` share
`IP6OptsHeader`'s behaviour and are distinguished only by the protocol
id they are stored under).  Each variant carries the unpacked header
fields, its `data` remainder, derived fields, and the computed
`length`. -/
inductive ExtHdr where
  | opts (nxt len : Nat) (data : Bytes) (options : List TLV) (length : Nat)
  | routing (nxt len typ segs_left rsvd_sl_bits : Nat) (data : Bytes)
      (addresses : List Bytes) (length : Nat)
  | fragment (nxt resv frag_off_resv_m id : Nat) (length : Nat)
  | ah (nxt len resv spi seq : Nat) (data auth_data : Bytes) (length : Nat)
  | esp (spi seq : Nat) (data : Bytes) (length : Nat)
deriving DecidableEq, Repr

/-- The computed byte length `self.length` of a decoded header. -/
def ExtHdr.length : ExtHdr → Nat
  | .opts _ _ _ _ l => l
  | .routing _ _ _ _ _ _ _ l => l
  | .fragment _ _ _ _ l => l
  | .ah _ _ _ _ _ _ _ l => l
  | .esp _ _ _ l => l

/-- `getattr(ext, 'nxt', None)`: every variant except ESP has a `nxt`
header field; `IP6ESPHeader.__hdr__` starts directly with the SPI. -/
def ExtHdr.nextHdr? : ExtHdr → Option Nat
  | .opts nxt _ _ _ _ => some nxt
  | .routing nxt _ _ _ _ _ _ _ => some nxt
  | .fragment nxt _ _ _ _ => some nxt
  | .ah nxt _ _ _ _ _ _ _ => some nxt
  | .esp _ _ _ _ => none

/-- `IP6OptsHeader.unpack` (also used for Hop-by-Hop and Destination
Options): a 2-byte fixed header, `length = (len + 1) * 8`, `data` is the
whole remainder of the buffer (it is not trimmed to `length`), and the
TLV scan walks `data` up to `self.length - 2`. -/
def decodeOpts (buf : Bytes) : Except Err ExtHdr :=
  if buf.length < 2 then .error .needData
  else
    let nxt := buf.getD 0 0
    let len := buf.getD 1 0
    let data := buf.drop 2
    let length := (len + 1) * 8
    match scanOpts data (length - 2) (length + 1) 0 with
    | .error e => .error e
    | .ok options => .ok (.opts nxt len data options length)

/-- `IP6RoutingHeader.unpack`: an 8-byte fixed header, then
`len // 2` 16-byte addresses sliced from the following bytes (short
buffers silently yield short slices, as Python slicing does);
`length = len * 8 + 8`. -/
def decodeRouting (buf : Bytes) : Except Err ExtHdr :=
  if buf.length < 8 then .error .needData
  else
    let nxt := buf.getD 0 0
    let len := buf.getD 1 0
    let typ := buf.getD 2 0
    let segs_left := buf.getD 3 0
    let rsvd_sl_bits := rd32 buf 4
    let num := len / 2
    let data := (buf.drop 8).take (num * 16)
    let addresses := (List.range num).map fun i => (data.drop (i * 16)).take 16
    .ok (.routing nxt len typ segs_left rsvd_sl_bits data addresses (len * 8 + 8))

/-- `IP6FragmentHeader.unpack`: fixed 8 bytes, `length = __hdr_len__ = 8`
and `data = b''`. -/
def decodeFragment (buf : Bytes) : Except Err ExtHdr :=
  if buf.length < 8 then .error .needData
  else .ok (.fragment (buf.getD 0 0) (buf.getD 1 0) (rd16 buf 2) (rd32 buf 4) 8)

/-- `IP6AHHeader.unpack`: a 12-byte fixed header,
`length = (len + 2) * 4`, `auth_data = data[:(len - 1) * 4]` (for
`len = 0` the Python slice bound is `-4`, i.e. all but the last four
bytes of `data`). -/
def decodeAH (buf : Bytes) : Except Err ExtHdr :=
  if buf.length < 12 then .error .needData
  else
    let nxt := buf.getD 0 0
    let len := buf.getD 1 0
    let resv := rd16 buf 2
    let spi := rd32 buf 4
    let seq := rd32 buf 8
    let data := buf.drop 12
    let auth_data :=
      if len = 0 then data.take (data.length - 4) else data.take ((len - 1) * 4)
    .ok (.ah nxt len resv spi seq data auth_data ((len + 2) * 4))

/-- `IP6ESPHeader.unpack`: an 8-byte fixed header and
`length = __hdr_len__ + len(self.data)`, i.e. the whole buffer. -/
def decodeESP (buf : Bytes) : Except Err ExtHdr :=
  if buf.length < 8 then .error .needData
  else
    let data := buf.drop 8
    .ok (.esp (rd32 buf 0) (rd32 buf 4) data (8 + data.length))

/-- The `ext_hdrs` list: recognized extension protocol ids in the fixed
emission order (HOPOPTS, ROUTING, FRAGMENT, AH, ESP, DSTOPTS). -/
def extHdrIds : List Nat := [0, 43, 44, 51, 50, 60]

/-- The `ext_hdrs_cls` dispatch: protocol id to decoder. -/
def decodeExt (c : Nat) (buf : Bytes) : Except Err ExtHdr :=
  if c = 0 ∨ c = 60 then decodeOpts buf
  else if c = 43 then decodeRouting buf
  else if c = 44 then decodeFragment buf
  else if c = 51 then decodeAH buf
  else if c = 50 then decodeESP buf
  else .error .needData

/-- The extension-header chain walk of `IP6.unpack`: while the current
protocol id is a recognized extension id, decode the matching header
from the buffer, record it under the current id, advance the buffer by
the header's computed `length`, and continue with `getattr(ext, 'nxt',
None)`.  Returns the recorded `(id, header)` pairs in wire order, the
terminal value of `next_ext_hdr` and the remaining buffer.  `fuel`
bounds the iterations; any `fuel > buf.length` suffices (proved
below). -/
def walk : Nat → Option Nat → Bytes → Except Err (List (Nat × ExtHdr) × Option Nat × Bytes)
  | 0, _, _ => .error .fuelExhausted
  | fuel + 1, cur, buf =>
    match cur with
    | none => .ok ([], none, buf)
    | some c =>
      if c ∈ extHdrIds then
        match decodeExt c buf with
        | .error e => .error e
        | .ok ext =>
          match walk fuel ext.nextHdr? (buf.drop ext.length) with
          | .error e => .error e
          | .ok (chain, t, rest) => .ok ((c, ext) :: chain, t, rest)
      else .ok ([], some c, buf)

/-! ### Upper-layer payload and protocol registry -/

/-- Modelled from the spec: the upper-layer payload of a packet is
either raw undecoded bytes (`bytes`, which has no `sum` attribute) or a
decoded upper-layer object exposing a mutable 16-bit checksum field
`sum` that occupies a fixed position inside its serialization
(`pre ++ big-endian sum ++ post`).  The decoded-object shape stands in
for the external TCP/UDP/ICMPv6 decoder classes, which are outside the
given sources. -/
inductive Payload where
  | raw (bs : Bytes)
  | obj (sum : Nat) (pre post : Bytes)
deriving DecidableEq, Repr

/-- Reading `payload.sum`: raw bytes have no such attribute
(`AttributeError`, hence `none`). -/
def paySum : Payload → Option Nat
  | .raw _ => none
  | .obj s _ _ => some s

/-- Writing `payload.sum = v`: on raw bytes the assignment raises
`AttributeError`, which `IP6.__bytes__` catches and ignores, so the
payload is returned unchanged. -/
def payWriteSum : Payload → Nat → Payload
  | .raw bs, _ => .raw bs
  | .obj _ pre post, v => .obj v pre post

/-- `bytes(payload)`: raw bytes serialize to themselves; a decoded
object serializes with its checksum field big-endian at its fixed
position. -/
def payBytes : Payload → Bytes
  | .raw bs => bs
  | .obj s pre post => pre ++ [s / 256 % 256, s % 256] ++ post

/-- Modelled from the spec: the external protocol registry
(`IP6._protosw`, shared with the IPv4 module and outside the given
sources) maps an 8-bit protocol id to an optional decoder; a decoder
either produces a payload object or fails with an `UnpackError`
(`none`). -/
def Registry := Nat → Option (Bytes → Option Payload)

/-- The empty registry: every lookup is a `KeyError` miss. -/
def emptyReg : Registry := fun _ => none

/-- Lines 108–112 of `IP6.unpack`: look the terminal protocol id up in
`self._protosw` and decode the remaining bytes; on `KeyError` (registry
miss, including the `None` key left by an ESP header) or `UnpackError`
(decoder failure) keep the remaining bytes verbatim. -/
def upperDecode (reg : Registry) (t : Option Nat) (buf : Bytes) : Payload :=
  match t with
  | none => .raw buf
  | some id =>
    match reg id with
    | none => .raw buf
    | some dec =>
      match dec buf with
      | none => .raw buf
      | some pl => pl

/-! ### The IP6 packet codec -/

/-- A decoded (or programmatically built) `IP6` packet object:
the six fixed-header fields, the `extension_hdrs` dict (kept as the
insertion-ordered key/value list; Python dict assignment overwrites, so
lookups take the last entry with the key), the optional `p` attribute
(set only when the chain walk ends in a non-`None` id) and the payload
`data`. -/
structure IP6 where
  v_fc_flow : Nat
  plen : Nat
  nxt : Nat
  hlim : Nat
  src : Bytes
  dst : Bytes
  extension_hdrs : List (Nat × ExtHdr)
  p : Option Nat
  data : Payload
deriving DecidableEq, Repr

/-- Python-dict lookup in the insertion-ordered list: the value of the
last assignment to the key, if any. -/
def dictLookup (l : List (Nat × ExtHdr)) (k : Nat) : Option ExtHdr :=
  match l with
  | [] => none
  | (k2, v) :: rest =>
    match dictLookup rest k with
    | some r => some r
    | none => if k2 = k then some v else none

/-- Lines 91–94 of `IP6.unpack`: the working payload region handed to
the chain walk is `self.data[:self.plen]` when `plen` is non-zero and
the whole of `self.data` (everything after the 40-byte fixed header)
otherwise. -/
def ip6Region (buf : Bytes) : Bytes :=
  let plen := rd16 buf 4
  if plen ≠ 0 then (buf.drop 40).take plen else buf.drop 40

/-- `IP6.unpack` via `dpkt.Packet.unpack`: parse the 40-byte fixed
header (struct `>IHBB16s16s`; a shorter buffer raises `NeedData`), run
the extension-header chain walk on the working region, set `self.p`
when the walk ends in a non-`None` id, and decode the upper layer via
the registry with raw-bytes fallback. -/
def ip6Unpack (reg : Registry) (buf : Bytes) : Except Err IP6 :=
  if buf.length < 40 then .error .needData
  else
    let region := ip6Region buf
    match walk (region.length + 1) (some (buf.getD 6 0)) region with
    | .error e => .error e
    | .ok (chain, t, rest) =>
      .ok { v_fc_flow := rd32 buf 0
            plen := rd16 buf 4
            nxt := buf.getD 6 0
            hlim := buf.getD 7 0
            src := (buf.drop 8).take 16
            dst := (buf.drop 24).take 16
            extension_hdrs := chain
            p := t
            data := upperDecode reg t rest }

/-- `bytes(ext)` for an extension header (`dpkt.Packet.__bytes__ =
pack_hdr() + bytes(data)`): the packed fixed fields followed by the
stored `data` (empty for Fragment headers). -/
def extHdrBytes : ExtHdr → Option Bytes
  | .opts nxt len data _ _ => do
      pure ((← packB nxt) ++ (← packB len) ++ data)
  | .routing nxt len typ segs_left rsvd_sl_bits data _ _ => do
      pure ((← packB nxt) ++ (← packB len) ++ (← packB typ) ++
        (← packB segs_left) ++ (← packI rsvd_sl_bits) ++ data)
  | .fragment nxt resv frag_off_resv_m id _ => do
      pure ((← packB nxt) ++ (← packB resv) ++ (← packH frag_off_resv_m) ++
        (← packI id))
  | .ah nxt len resv spi seq data _ _ => do
      pure ((← packB nxt) ++ (← packB len) ++ (← packH resv) ++
        (← packI spi) ++ (← packI seq) ++ data)
  | .esp spi seq data _ => do
      pure ((← packI spi) ++ (← packI seq) ++ data)

/-- The loop body of `IP6.headers_str` over an explicit id list. -/
def headersStrAux (ids : List Nat) (hdrs : List (Nat × ExtHdr)) : Option Bytes :=
  match ids with
  | [] => some []
  | i :: rest =>
    match dictLookup hdrs i with
    | none => headersStrAux rest hdrs
    | some e => do pure ((← extHdrBytes e) ++ (← headersStrAux rest hdrs))

/-- `IP6.headers_str`: emit the present extension headers in the fixed
`ext_hdrs` order (Hop-by-Hop, Routing, Fragment, AH, ESP, Destination
Options), skipping absent ids. -/
def headersStr (hdrs : List (Nat × ExtHdr)) : Option Bytes :=
  headersStrAux extHdrIds hdrs

/-- `IP6.pack_hdr()`: struct `>IHBB16s16s` over the fixed-header
fields. -/
def ip6PackHdr (pkt : IP6) : Option Bytes := do
  pure ((← packI pkt.v_fc_flow) ++ (← packH pkt.plen) ++ (← packB pkt.nxt) ++
    (← packB pkt.hlim) ++ pack16s pkt.src ++ pack16s pkt.dst)

/-- The pseudo-header `struct.pack('>16s16sxBH', src, dst, nxt, len)`:
source address, destination address, one zero pad byte, the fixed
header's `nxt` field and the big-endian payload length. -/
def pseudoHdrBytes (src dst : Bytes) (nxt plen : Nat) : Option Bytes :=
  if nxt < 256 ∧ plen < 65536 then
    some (pack16s src ++ pack16s dst ++ [0, nxt] ++ encH plen)
  else none

/-- Lines 125–134 of `IP6.__bytes__`: the checksum fix-up.  Evaluating
`self.p` raises `AttributeError` when the attribute was never set;
evaluating `self.data.sum` raises `AttributeError` on a raw-bytes
payload (this read sits outside the `try`).  When `p` is TCP(6),
UDP(17) or ICMPv6(58) and the checksum reads zero, the checksum of the
pseudo-header concatenated with the serialized payload is written into
the payload's `sum` field (an `AttributeError` from that write is
swallowed). -/
def ip6Fixup (pkt : IP6) : Except Err IP6 :=
  match pkt.p with
  | none => .error .attributeError
  | some t =>
    if t = 6 ∨ t = 17 ∨ t = 58 then
      match paySum pkt.data with
      | none => .error .attributeError
      | some s =>
        if s = 0 then
          let pb := payBytes pkt.data
          match pseudoHdrBytes pkt.src pkt.dst pkt.nxt pb.length with
          | none => .error .structError
          | some ph =>
            .ok { pkt with
                  data := payWriteSum pkt.data
                    (in_cksum_done (in_cksum_add (in_cksum_add 0 ph) pb)) }
        else .ok pkt
    else .ok pkt

/-- Line 135 of `IP6.__bytes__`:
`self.pack_hdr() + self.headers_str() + bytes(self.data)`. -/
def ip6Emit (pkt : IP6) : Except Err Bytes :=
  match ip6PackHdr pkt, headersStr pkt.extension_hdrs with
  | some h, some hs => .ok (h ++ hs ++ payBytes pkt.data)
  | _, _ => .error .structError

/-- `IP6.__bytes__`: checksum fix-up followed by emission. -/
def ip6Bytes (pkt : IP6) : Except Err Bytes :=
  (ip6Fixup pkt).bind ip6Emit

/-- Decode then re-encode (`bytes(IP6(b))`). -/
def roundTrip (reg : Registry) (b : Bytes) : Except Err Bytes :=
  (ip6Unpack reg b).bind ip6Bytes

/-- Follows the spec's words, for comparison with the code (refinement
check for the checksum claim): the checksum the spec prescribes is
computed over a pseudo-header built from the source address, the
destination address, a zero byte, the **upper-layer protocol id**
(`upper_layer_protocol`, i.e. `self.p`) and the big-endian 16-bit
length of the serialized payload, concatenated with the serialized
payload. -/
def specChecksum (pkt : IP6) : Option Nat :=
  match pkt.p with
  | none => none
  | some t =>
    let pb := payBytes pkt.data
    (pseudoHdrBytes pkt.src pkt.dst t pb.length).map fun ph =>
      in_cksum_done (in_cksum_add (in_cksum_add 0 ph) pb)

deriving instance DecidableEq for Except

/-- Headers whose re-serialization covers exactly the bytes their
decoder consumed: Fragment headers always do (`data = b''`,
`length = 8`), and Routing headers do whenever their `len` field is
even (`length = len * 8 + 8` versus `8 + (len / 2) * 16` emitted).
Options, AH and ESP headers keep the whole remaining buffer as `data`,
so their serialization covers the rest of the working region rather
than their computed `length`. -/
def goodHdr : ExtHdr → Bool
  | .fragment _ _ _ _ _ => true
  | .routing _ len _ _ _ _ _ _ => len % 2 == 0
  | _ => false

/-- Concatenated serialization of a decoded chain in wire order. -/
def chainBytes : List (Nat × ExtHdr) → Option Bytes
  | [] => some []
  | (_, e) :: r => do pure ((← extHdrBytes e) ++ (← chainBytes r))

/-! ### Concrete inputs used by the witnesses and counterexamples -/

/-- The 56-byte IPv6-with-Fragment-header packet from
`test_ip6_fragment_header` (plen 16, one Fragment extension header,
terminal protocol 41). -/
def exFrag : Bytes :=
  [96, 0, 0, 0, 0, 16, 44, 0,
   2, 34, 0, 0, 0, 0, 0, 0, 0, 0, 0, 0, 0, 0, 0, 2,
   3, 51, 0, 0, 0, 0, 0, 0, 0, 0, 0, 0, 0, 0, 0, 3,
   41, 0, 0, 1, 0, 0, 0, 0,
   96, 0, 0, 0, 0, 16, 44, 0]

/-- The packet object `IP6(exFrag)` decodes to (with an empty
registry). -/
def exFragPkt : IP6 :=
  { v_fc_flow := 1610612736, plen := 16, nxt := 44, hlim := 0,
    src := [2, 34, 0, 0, 0, 0, 0, 0, 0, 0, 0, 0, 0, 0, 0, 2],
    dst := [3, 51, 0, 0, 0, 0, 0, 0, 0, 0, 0, 0, 0, 0, 0, 3],
    extension_hdrs := [(44, .fragment 41 0 1 0 8)],
    p := some 41,
    data := .raw [96, 0, 0, 0, 0, 16, 44, 0] }

/-- A 64-byte IPv6 packet carrying a single Hop-by-Hop Options header
(8 bytes, one PADN option) followed by an 8-byte upper-layer payload
(terminal protocol 59): extension headers are in canonical wire order,
yet re-encoding does not reproduce the input because the Options
header's untrimmed `data` is emitted in full. -/
def exBad : Bytes :=
  [96, 0, 0, 0, 0, 16, 0, 64] ++ List.replicate 16 0 ++ List.replicate 16 0 ++
    [59, 0, 1, 4, 0, 0, 0, 0] ++ [1, 2, 3, 4, 5, 6, 7, 8]

/-- The packet `IP6(exBad)` decodes to (empty registry): one Hop-by-Hop
Options header whose `data` keeps all 14 bytes after its two fixed
bytes, although its computed length is 8. -/
def exBadPkt : IP6 :=
  { v_fc_flow := 1610612736, plen := 16, nxt := 0, hlim := 64,
    src := List.replicate 16 0, dst := List.replicate 16 0,
    extension_hdrs := [(0, .opts 59 0 [1, 4, 0, 0, 0, 0, 1, 2, 3, 4, 5, 6, 7, 8] [] 8)],
    p := some 59,
    data := .raw [1, 2, 3, 4, 5, 6, 7, 8] }

/-- A packet whose upper-layer protocol is TCP(6) with checksum 0 but
whose fixed-header `nxt` is 44 (a Fragment header sits between): the
two protocol ids the pseudo-header could use differ. -/
def c1pkt : IP6 :=
  { v_fc_flow := 1610612736, plen := 10, nxt := 44, hlim := 64,
    src := List.replicate 16 0, dst := List.replicate 16 0,
    extension_hdrs := [(44, .fragment 6 0 0 1 8)], p := some 6,
    data := .obj 0 [] [] }

/-- A packet with upper-layer protocol TCP(6) whose checksum field is
set and whose `nxt` equals `p` (no extension headers). -/
def c1pkt2 : IP6 :=
  { v_fc_flow := 1610612736, plen := 8, nxt := 6, hlim := 64,
    src := List.replicate 16 1, dst := List.replicate 16 2,
    extension_hdrs := [], p := some 6,
    data := .obj 0 [0, 80, 0, 80] [1, 2] }

/-- A 48-byte wire packet whose upper layer is TCP(6); decoded against
an empty registry its payload stays raw bytes. -/
def c4wire : Bytes :=
  [96, 0, 0, 0, 0, 8, 6, 64] ++ List.replicate 16 1 ++ List.replicate 16 2 ++
    [0, 80, 0, 80, 1, 2, 3, 4]

/-- The packet `IP6(c4wire)` decodes to with an empty registry. -/
def c4pkt : IP6 :=
  { v_fc_flow := 1610612736, plen := 8, nxt := 6, hlim := 64,
    src := List.replicate 16 1, dst := List.replicate 16 2,
    extension_hdrs := [], p := some 6,
    data := .raw [0, 80, 0, 80, 1, 2, 3, 4] }

/-! ## Helper lemmas -/

/-- Masking with a contiguous run of bits `[l, l+n)` extracts those bits
of `w`, in place. -/
lemma land_mask (w n l : Nat) :
    w &&& ((2 ^ n - 1) <<< l) = ((w >>> l) % 2 ^ n) <<< l := by
  apply Nat.eq_of_testBit_eq
  intro i
  simp only [Nat.testBit_land, Nat.testBit_shiftLeft, Nat.testBit_mod_two_pow,
    Nat.testBit_two_pow_sub_one, Nat.testBit_shiftRight]
  by_cases h : l ≤ i
  · have h2 : l + (i - l) = i := by omega
    simp [ge_iff_le, h, h2]
    cases w.testBit i <;> simp
  · simp [ge_iff_le, h]

/-- Bitwise or of a shifted value with a value below the shift is
addition. -/
lemma lor_low (a b i : Nat) (h : b < 2 ^ i) : (a <<< i) ||| b = a * 2 ^ i + b := by
  rw [Nat.shiftLeft_eq, mul_comm, ← Nat.mul_add_lt_is_or h, mul_comm]

/-- Masking with the low `n` bits is `mod 2 ^ n`. -/
lemma land_low (w n : Nat) : w &&& (2 ^ n - 1) = w % 2 ^ n := by
  have h := land_mask w n 0
  simp only [Nat.shiftLeft_zero, Nat.shiftRight_zero] at h
  exact h

/-- Bytes of a list range over its members. -/
lemma getD_lt_256 (b : Bytes) (hb : ∀ x ∈ b, x < 256) (i : Nat)
    (hi : i < b.length) : b.getD i 0 < 256 := by
  rw [List.getD_eq_getElem b 0 hi]
  exact hb _ (List.getElem_mem hi)

/-- The first eight entries of a list of length at least eight. -/
lemma take_eight (b : Bytes) (h : 8 ≤ b.length) :
    b.take 8 = [b.getD 0 0, b.getD 1 0, b.getD 2 0, b.getD 3 0,
      b.getD 4 0, b.getD 5 0, b.getD 6 0, b.getD 7 0] := by
  rcases b with _|⟨a0,_|⟨a1,_|⟨a2,_|⟨a3,_|⟨a4,_|⟨a5,_|⟨a6,_|⟨a7,rest⟩⟩⟩⟩⟩⟩⟩⟩ <;>
    simp_all

/-- Splitting the 40-byte fixed-header prefix at the source and
destination addresses. -/
lemma take40_decomp (b : Bytes) :
    b.take 40 = b.take 8 ++ (b.drop 8).take 16 ++ (b.drop 24).take 16 := by
  have h1 : b.take 40 = b.take 8 ++ (b.drop 8).take 32 := by
    have := List.take_add b 8 32
    simpa using this
  have h2 : (b.drop 8).take 32 = (b.drop 8).take 16 ++ ((b.drop 8).drop 16).take 16 := by
    have := List.take_add (b.drop 8) 16 16
    simpa using this
  rw [h1, h2, List.drop_drop, List.append_assoc]

/-- Big-endian 32-bit encode inverts the 32-bit read on byte values. -/
lemma encI_bytes (b0 b1 b2 b3 : Nat) (h0 : b0 < 256) (h1 : b1 < 256)
    (h2 : b2 < 256) (h3 : b3 < 256) :
    encI (16777216 * b0 + 65536 * b1 + 256 * b2 + b3) = [b0, b1, b2, b3] := by
  simp only [encI, List.cons.injEq, and_true]
  refine ⟨by omega, by omega, by omega, by omega⟩

/-- Big-endian 16-bit encode inverts the 16-bit read on byte values. -/
lemma encH_bytes (b0 b1 : Nat) (h0 : b0 < 256) (h1 : b1 < 256) :
    encH (256 * b0 + b1) = [b0, b1] := by
  simp only [encH, List.cons.injEq, and_true]
  exact ⟨by omega, by omega⟩

/-- A 16-byte string packs to itself under struct `16s`. -/
lemma pack16s_of_length (s : Bytes) (h : s.length = 16) : pack16s s = s := by
  simp [pack16s, h, List.take_of_length_le (by omega : s.length ≤ 16)]

/-- Arithmetic form of the `v` setter on 32-bit words: the new version
nibble is installed unmasked above the untouched low 28 bits. -/
lemma set_v_eq (w v : Nat) (hw : w < 4294967296) :
    set_v w v = v * 268435456 + w % 268435456 := by
  have hm : (0xf0000000 : Nat) = (2 ^ 4 - 1) <<< 28 := by decide
  have h1 : w &&& 0xf0000000 = w / 268435456 * 268435456 := by
    rw [hm, land_mask, Nat.shiftLeft_eq, Nat.shiftRight_eq_div_pow]
    have hd : w / 2 ^ 28 < 2 ^ 4 := by omega
    rw [Nat.mod_eq_of_lt hd]
    norm_num
  have h2 : pyAndNot w 0xf0000000 = w % 268435456 := by
    unfold pyAndNot
    omega
  rw [set_v, h2, Nat.lor_comm, lor_low v (w % 268435456) 28 (by omega)]
  norm_num

/-- Masking with `0xfffff` is `mod 2^20`. -/
lemma land_fffff (w : Nat) : w &&& 0xfffff = w % 1048576 := by
  have hm : (0xfffff : Nat) = 2 ^ 20 - 1 := by decide
  rw [hm, land_low]
  norm_num

/-- The shared or-step of the `flow` and `sl_bits` setters. -/
lemma clear_low_or (w v : Nat) :
    (w - w % 1048576) ||| v % 1048576 = w / 1048576 * 1048576 + v % 1048576 := by
  have h20 : (2 : Nat) ^ 20 = 1048576 := by norm_num
  have hb : v % 1048576 < 2 ^ 20 := by
    rw [h20]
    exact Nat.mod_lt _ (by norm_num)
  have h3 : w - w % 1048576 = (w / 1048576) <<< 20 := by
    rw [Nat.shiftLeft_eq, h20]
    omega
  rw [h3, lor_low _ _ 20 hb, h20]

/-- Arithmetic form of the `flow` setter: the value is masked to 20 bits
and installed below the untouched high bits. -/
lemma set_flow_eq (w v : Nat) :
    set_flow w v = w / 1048576 * 1048576 + v % 1048576 := by
  rw [set_flow, pyAndNot, land_fffff, land_fffff, clear_low_or]

/-- Arithmetic form of the `sl_bits` setter (same masks as `flow`). -/
lemma set_sl_bits_eq (w v : Nat) :
    set_sl_bits w v = w / 1048576 * 1048576 + v % 1048576 := by
  rw [set_sl_bits, pyAndNot, land_fffff, land_fffff, clear_low_or]

/-! ## Claim C4 -/

/-- C4: the claim says that when `upper_layer_protocol` is 6/17/58 but
the payload exposes no checksum field (e.g. raw undecoded bytes),
encoding skips the fix-up silently and returns the serialized bytes.
The code instead raises `AttributeError`: the guard
`not self.data.sum` reads `.sum` outside the `try/except
AttributeError` block that was meant to implement the silent skip.
This theorem evaluates the code at a failing input: a TCP packet
decoded against an empty registry (payload stays raw bytes) makes
`IP6.__bytes__` raise. -/
theorem C4_raw_payload_attribute_error :
    ip6Unpack emptyReg c4wire = .ok c4pkt ∧
    c4pkt.data = .raw [0, 80, 0, 80, 1, 2, 3, 4] ∧
    ip6Bytes c4pkt = .error .attributeError := by
  refine ⟨by decide, by decide, by decide⟩

/-! ## Claim C6 -/

/-- C6: the claim says every packed-word sub-field setter round-trips
in-range values and leaves sibling sub-fields unchanged.  This theorem
evaluates the code at failing inputs: the `m_flag` setter computes
`(word & ~0xfffe) | v`, which clears bits 1–15 — on the 16-bit word 40
(`frag_off = 5`, `m_flag = 0`) setting `m_flag := 1` destroys
`frag_off`; because bit 0 is kept and or-ed, setting `m_flag := 0` on
word 41 cannot clear the flag.  The `sl_bits` setter masks with
`0xfffff` although the getter reads 24 bits, so the in-width value
`2^20` reads back as 0. -/
theorem C6_m_flag_and_sl_bits_failing :
    get_frag_off 40 = 5 ∧ get_m_flag 40 = 0 ∧
    set_m_flag 40 1 = 1 ∧ get_frag_off (set_m_flag 40 1) = 0 ∧
    get_m_flag 41 = 1 ∧ get_m_flag (set_m_flag 41 0) = 1 ∧
    (1048576 : Nat) < 16777216 ∧ get_sl_bits (set_sl_bits 0 1048576) = 0 := by
  decide

/-! ## Claim C7 -/

/-- C7 counterexample: the claim says an oversized sub-field value is
masked down to the field width when packed and the packed word stays a
valid value of its declared width.  Setting `v := 16` on the word
`0x60000000` stores the value unmasked (it reads back as 16, not
`16 & 0xf = 0`), pushes the packed word to `2^32` (not a valid 32-bit
value) and makes `pack_hdr` (struct `>I`) reject the packet. -/
theorem C7_counterexample :
    get_v (set_v 1610612736 16) = 16 ∧
    (4294967296 : Nat) ≤ set_v 1610612736 16 ∧
    ip6PackHdr { v_fc_flow := set_v 1610612736 16, plen := 0, nxt := 59,
                 hlim := 64, src := List.replicate 16 0,
                 dst := List.replicate 16 0, extension_hdrs := [],
                 p := some 59, data := .raw [] } = none := by
  decide

/-- Arithmetic form of the `frag_off` setter on 16-bit words: the new
offset is installed unmasked above the untouched low three bits. -/
lemma set_frag_off_eq (x v : Nat) (hx : x < 65536) :
    set_frag_off x v = v * 8 + x % 8 := by
  have hm : (0xfff8 : Nat) = (2 ^ 13 - 1) <<< 3 := by decide
  have hland : x &&& 0xfff8 = x / 8 % 8192 * 8 := by
    rw [hm, land_mask, Nat.shiftLeft_eq, Nat.shiftRight_eq_div_pow]
    norm_num
  have h1 : pyAndNot x 0xfff8 = x % 8 := by
    unfold pyAndNot
    rw [hland]
    omega
  rw [set_frag_off, h1, Nat.lor_comm, lor_low v (x % 8) 3 (by omega)]
  norm_num

/-- Arithmetic form of the `m_flag` setter on 16-bit words:
`(x & ~0xfffe) | v` keeps only bit 0 of the word and ors in the whole
value unmasked. -/
lemma set_m_flag_eq (x v : Nat) (hx : x < 65536) :
    set_m_flag x v = x % 2 ||| v := by
  have hm : (0xfffe : Nat) = (2 ^ 15 - 1) <<< 1 := by decide
  have hland : x &&& 0xfffe = x / 2 % 32768 * 2 := by
    rw [hm, land_mask, Nat.shiftLeft_eq, Nat.shiftRight_eq_div_pow]
    norm_num
  have h1 : pyAndNot x 0xfffe = x % 2 := by
    unfold pyAndNot
    rw [hland]
    omega
  rw [set_m_flag, h1]

/-- C7 (amended): only the flow-label setter (and the strict/loose
bitmap setter, which shares its masks) masks its value to the field
width.  The version, traffic-class, fragment-offset and more-fragments
setters install the value unmasked: the version and fragment-offset
fields read back any value whole; the traffic-class setter shifts the
whole value into the word (corrupting the version nibble at the
concrete word `0x60000000` for value 256); the more-fragments setter
ors the whole value in; and oversized values push each packed word past
its declared 32-bit (resp. 16-bit) width, which serialization then
rejects rather than truncates. -/
theorem C7_only_flow_masks (w v x : Nat) (hw : w < 4294967296) (hx : x < 65536) :
    get_v (set_v w v) = v ∧
    (16 ≤ v → 4294967296 ≤ set_v w v) ∧
    set_fc 0 v = v * 1048576 ∧
    (4096 ≤ v → 4294967296 ≤ set_fc 0 v) ∧
    get_v (set_fc 1610612736 256) = 7 ∧ get_v 1610612736 = 6 ∧
    get_frag_off (set_frag_off x v) = v ∧
    (8192 ≤ v → 65536 ≤ set_frag_off x v) ∧
    set_m_flag x v = x % 2 ||| v ∧
    set_m_flag 0 65536 = 65536 ∧
    set_flow w v < 4294967296 ∧
    get_flow (set_flow w v) = v % 1048576 ∧
    set_sl_bits w v < 4294967296 ∧
    get_sl_bits (set_sl_bits w v) = w / 1048576 % 16 * 1048576 + v % 1048576 := by
  have hv := set_v_eq w v hw
  have hf := set_flow_eq w v
  have hsl := set_sl_bits_eq w v
  have hfo := set_frag_off_eq x v hx
  have hfc : set_fc 0 v = v * 1048576 := by
    rw [set_fc]
    unfold pyAndNot
    rw [Nat.zero_and, Nat.sub_zero, Nat.zero_or, Nat.shiftLeft_eq]
  have hflow20 : (0xfffff : Nat) = 2 ^ 20 - 1 := by decide
  have hsl24 : (0xffffff : Nat) = 2 ^ 24 - 1 := by decide
  refine ⟨?_, ?_, hfc, ?_, by decide, by decide, ?_, ?_,
    set_m_flag_eq x v hx, by decide, ?_, ?_, ?_, ?_⟩
  · rw [get_v, hv, Nat.shiftRight_eq_div_pow]
    have h28 : (2 : Nat) ^ 28 = 268435456 := by norm_num
    rw [h28]
    omega
  · intro h16
    rw [hv]
    omega
  · intro h12
    rw [hfc]
    omega
  · rw [get_frag_off, hfo, Nat.shiftRight_eq_div_pow]
    omega
  · intro h13
    rw [hfo]
    omega
  · rw [hf]
    omega
  · rw [get_flow, hf, hflow20, land_low]
    omega
  · rw [hsl]
    omega
  · rw [get_sl_bits, hsl, hsl24, land_low]
    omega

/-- Witness for C7's amended theorem at `w = 0x60000000`, `v = 2^20`,
`x = 40` (every oversize implication fires at `v = 2^20`). -/
theorem C7_witness :
    get_v (set_v 1610612736 1048576) = 1048576 ∧
    (16 ≤ 1048576 → (4294967296 : Nat) ≤ set_v 1610612736 1048576) ∧
    set_fc 0 1048576 = 1048576 * 1048576 ∧
    (4096 ≤ 1048576 → (4294967296 : Nat) ≤ set_fc 0 1048576) ∧
    get_v (set_fc 1610612736 256) = 7 ∧ get_v 1610612736 = 6 ∧
    get_frag_off (set_frag_off 40 1048576) = 1048576 ∧
    (8192 ≤ 1048576 → (65536 : Nat) ≤ set_frag_off 40 1048576) ∧
    set_m_flag 40 1048576 = 40 % 2 ||| 1048576 ∧
    set_m_flag 0 65536 = 65536 ∧
    set_flow 1610612736 1048576 < 4294967296 ∧
    get_flow (set_flow 1610612736 1048576) = 1048576 % 1048576 ∧
    set_sl_bits 1610612736 1048576 < 4294967296 ∧
    get_sl_bits (set_sl_bits 1610612736 1048576) =
      1610612736 / 1048576 % 16 * 1048576 + 1048576 % 1048576 :=
  C7_only_flow_masks 1610612736 1048576 40 (by decide) (by decide)

/-! ## Claim C5 -/

/-- C5 counterexample: the claim says the TLV scanner never reads or
emits bytes located past the declared region, even when an option's
length byte claims more bytes than remain.  With data
`[2, 6, 1, 2, 3, 4, 5, 6, 7, 8]` and declared region length 4, the
option at position 0 (type 2, length 6) claims past the region, and the
scanner emits the six bytes `[1, 2, 3, 4, 5, 6]` — four of them located
at positions 4–7, past the declared region; restricting the data to the
declared region changes the scan's output. -/
theorem C5_counterexample :
    scanOpts [2, 6, 1, 2, 3, 4, 5, 6, 7, 8] 4 11 0 =
      .ok [⟨2, 6, [1, 2, 3, 4, 5, 6]⟩] ∧
    ([2, 6, 1, 2, 3, 4, 5, 6, 7, 8] : Bytes).take 4 = [2, 6, 1, 2] ∧
    scanOpts [2, 6, 1, 2] 4 11 0 = .ok [⟨2, 6, [1, 2]⟩] ∧
    ([⟨2, 6, [1, 2, 3, 4, 5, 6]⟩] : List TLV) ≠ [⟨2, 6, [1, 2]⟩] := by
  decide

/-- C5 (amended): scanning stops once the position reaches the declared
region length, and a final partial option whose bytes are missing from
the underlying data fails fast with `IndexError`; but option values are
sliced from the full underlying data, so when the data extends beyond
the declared region an option whose length byte claims more than
remains in the region reads and emits bytes past it. -/
theorem C5_scan_behaviour (data : Bytes) (bound fuel idx : Nat) :
    (bound ≤ idx → scanOpts data bound (fuel + 1) idx = .ok []) ∧
    (idx < bound → data.length ≤ idx →
      scanOpts data bound (fuel + 1) idx = .error .indexError) ∧
    (∀ t l, idx < bound → data[idx]? = some t → t ≠ 0 → t ≠ 1 →
      data[idx + 1]? = some l →
      scanOpts data bound (fuel + 1) idx =
        match scanOpts data bound fuel (idx + l + 2) with
        | .error e => .error e
        | .ok rest => .ok (⟨t, l, (data.drop (idx + 2)).take l⟩ :: rest)) := by
  refine ⟨?_, ?_, ?_⟩
  · intro h
    unfold scanOpts
    rw [if_neg (by omega)]
  · intro h1 h2
    unfold scanOpts
    simp only [if_pos h1, List.getElem?_eq_none h2]
  · intro t l h1 ht h0 hne hl
    conv_lhs => rw [scanOpts]
    simp only [if_pos h1, ht, if_neg h0, hl, if_neg hne]

/-- Witness for C5's amended theorem: each conjunct applied at concrete
inputs (immediate stop, fail-fast on missing data, and the over-reading
emission step). -/
theorem C5_witness :
    scanOpts [5] 0 3 0 = .ok [] ∧
    scanOpts [] 2 3 0 = .error .indexError ∧
    scanOpts [2, 6, 1, 2, 3, 4, 5, 6, 7, 8] 4 11 0 =
      (match scanOpts [2, 6, 1, 2, 3, 4, 5, 6, 7, 8] 4 10 8 with
       | .error e => .error e
       | .ok rest => .ok (⟨2, 6, [1, 2, 3, 4, 5, 6]⟩ :: rest)) :=
  ⟨(C5_scan_behaviour [5] 0 2 0).1 (by decide),
   (C5_scan_behaviour [] 2 2 0).2.1 (by decide) (by decide),
   (C5_scan_behaviour [2, 6, 1, 2, 3, 4, 5, 6, 7, 8] 4 10 0).2.2 2 6
     (by decide) (by decide) (by decide) (by decide) (by decide)⟩

/-! ## Inversion lemmas for the extension-header decoders -/

/-- Inversion of a successful Options-header decode. -/
lemma decodeOpts_ok (buf : Bytes) (ext : ExtHdr) (h : decodeOpts buf = .ok ext) :
    2 ≤ buf.length ∧ ∃ o, ext = .opts (buf.getD 0 0) (buf.getD 1 0) (buf.drop 2)
      o ((buf.getD 1 0 + 1) * 8) := by
  unfold decodeOpts at h
  by_cases hl : buf.length < 2
  · rw [if_pos hl] at h
    cases h
  · rw [if_neg hl] at h
    dsimp only at h
    cases hscan : scanOpts (buf.drop 2) ((buf.getD 1 0 + 1) * 8 - 2)
        ((buf.getD 1 0 + 1) * 8 + 1) 0 with
    | error e => rw [hscan] at h; cases h
    | ok o => rw [hscan] at h; cases h; exact ⟨by omega, o, rfl⟩

/-- Inversion of a successful Routing-header decode. -/
lemma decodeRouting_ok (buf : Bytes) (ext : ExtHdr) (h : decodeRouting buf = .ok ext) :
    8 ≤ buf.length ∧ ext = .routing (buf.getD 0 0) (buf.getD 1 0) (buf.getD 2 0)
      (buf.getD 3 0) (rd32 buf 4) ((buf.drop 8).take (buf.getD 1 0 / 2 * 16))
      ((List.range (buf.getD 1 0 / 2)).map fun i =>
        (((buf.drop 8).take (buf.getD 1 0 / 2 * 16)).drop (i * 16)).take 16)
      (buf.getD 1 0 * 8 + 8) := by
  unfold decodeRouting at h
  by_cases hl : buf.length < 8
  · rw [if_pos hl] at h
    cases h
  · rw [if_neg hl] at h
    dsimp only at h
    cases h
    exact ⟨by omega, rfl⟩

/-- Inversion of a successful Fragment-header decode. -/
lemma decodeFragment_ok (buf : Bytes) (ext : ExtHdr) (h : decodeFragment buf = .ok ext) :
    8 ≤ buf.length ∧
    ext = .fragment (buf.getD 0 0) (buf.getD 1 0) (rd16 buf 2) (rd32 buf 4) 8 := by
  unfold decodeFragment at h
  by_cases hl : buf.length < 8
  · rw [if_pos hl] at h
    cases h
  · rw [if_neg hl] at h
    cases h
    exact ⟨by omega, rfl⟩

/-- Inversion of a successful AH-header decode. -/
lemma decodeAH_ok (buf : Bytes) (ext : ExtHdr) (h : decodeAH buf = .ok ext) :
    12 ≤ buf.length ∧ ∃ ad, ext = .ah (buf.getD 0 0) (buf.getD 1 0) (rd16 buf 2)
      (rd32 buf 4) (rd32 buf 8) (buf.drop 12) ad ((buf.getD 1 0 + 2) * 4) := by
  unfold decodeAH at h
  by_cases hl : buf.length < 12
  · rw [if_pos hl] at h
    cases h
  · rw [if_neg hl] at h
    dsimp only at h
    cases h
    exact ⟨by omega, _, rfl⟩

/-- Inversion of a successful ESP-header decode. -/
lemma decodeESP_ok (buf : Bytes) (ext : ExtHdr) (h : decodeESP buf = .ok ext) :
    8 ≤ buf.length ∧
    ext = .esp (rd32 buf 0) (rd32 buf 4) (buf.drop 8) (8 + (buf.drop 8).length) := by
  unfold decodeESP at h
  by_cases hl : buf.length < 8
  · rw [if_pos hl] at h
    cases h
  · rw [if_neg hl] at h
    dsimp only at h
    cases h
    exact ⟨by omega, rfl⟩

/-- The dispatch `decodeExt` for each of the six recognized ids. -/
lemma decodeExt_eq_of_id (c : Nat) (buf : Bytes) :
    (c = 0 ∨ c = 60 → decodeExt c buf = decodeOpts buf) ∧
    (c = 43 → decodeExt c buf = decodeRouting buf) ∧
    (c = 44 → decodeExt c buf = decodeFragment buf) ∧
    (c = 51 → decodeExt c buf = decodeAH buf) ∧
    (c = 50 → decodeExt c buf = decodeESP buf) := by
  refine ⟨fun h => ?_, fun h => ?_, fun h => ?_, fun h => ?_, fun h => ?_⟩ <;>
    subst_eqs <;> simp [decodeExt] <;> rcases h with rfl | rfl <;> simp [decodeExt]

/-- Every successful decode of a recognized extension header consumes a
buffer of length at least 2, computes a `length` of at least 8, and
leaves a strictly shorter remaining buffer. -/
lemma decode_shrinks (c : Nat) (buf : Bytes) (ext : ExtHdr)
    (h : decodeExt c buf = .ok ext) :
    8 ≤ ext.length ∧ 2 ≤ buf.length ∧
    (buf.drop ext.length).length < buf.length := by
  unfold decodeExt at h
  by_cases h1 : c = 0 ∨ c = 60
  · rw [if_pos h1] at h
    obtain ⟨hl, o, rfl⟩ := decodeOpts_ok buf ext h
    refine ⟨by simp only [ExtHdr.length]; omega, hl, ?_⟩
    simp only [ExtHdr.length, List.length_drop]
    omega
  · rw [if_neg h1] at h
    by_cases h2 : c = 43
    · rw [if_pos h2] at h
      obtain ⟨hl, rfl⟩ := decodeRouting_ok buf ext h
      refine ⟨by simp only [ExtHdr.length]; omega, by omega, ?_⟩
      simp only [ExtHdr.length, List.length_drop]
      omega
    · rw [if_neg h2] at h
      by_cases h3 : c = 44
      · rw [if_pos h3] at h
        obtain ⟨hl, rfl⟩ := decodeFragment_ok buf ext h
        refine ⟨by simp only [ExtHdr.length]; omega, by omega, ?_⟩
        simp only [ExtHdr.length, List.length_drop]
        omega
      · rw [if_neg h3] at h
        by_cases h4 : c = 51
        · rw [if_pos h4] at h
          obtain ⟨hl, ad, rfl⟩ := decodeAH_ok buf ext h
          refine ⟨by simp only [ExtHdr.length]; omega, by omega, ?_⟩
          simp only [ExtHdr.length, List.length_drop]
          omega
        · rw [if_neg h4] at h
          by_cases h5 : c = 50
          · rw [if_pos h5] at h
            obtain ⟨hl, rfl⟩ := decodeESP_ok buf ext h
            refine ⟨by simp only [ExtHdr.length]; omega, by omega, ?_⟩
            simp only [ExtHdr.length, List.length_drop]
            omega
          · rw [if_neg h5] at h
            cases h

/-- The scanner never runs out of fuel when given more fuel than
remaining positions. -/
lemma scan_ne_fuelExhausted :
    ∀ (fuel : Nat) (data : Bytes) (bound idx : Nat), bound - idx < fuel →
      scanOpts data bound fuel idx ≠ .error .fuelExhausted := by
  intro fuel
  induction fuel with
  | zero => intro data bound idx h; omega
  | succ n ih =>
    intro data bound idx h
    unfold scanOpts
    by_cases h1 : idx < bound
    · rw [if_pos h1]
      cases hg : data[idx]? with
      | none => simp
      | some t =>
        by_cases ht0 : t = 0
        · simp only [if_pos ht0]
          exact ih data bound (idx + 1) (by omega)
        · simp only [if_neg ht0]
          cases hg2 : data[idx + 1]? with
          | none => simp
          | some l =>
            by_cases ht1 : t = 1
            · simp only [if_pos ht1]
              exact ih data bound (idx + l + 2) (by omega)
            · simp only [if_neg ht1]
              cases hrec : scanOpts data bound n (idx + l + 2) with
              | error e =>
                have he := ih data bound (idx + l + 2) (by omega)
                rw [hrec] at he
                exact he
              | ok rest => simp
    · rw [if_neg h1]
      simp

/-- No extension-header decoder ever reports fuel exhaustion. -/
lemma decodeExt_ne_fuelExhausted (c : Nat) (buf : Bytes) :
    decodeExt c buf ≠ .error .fuelExhausted := by
  have hopts : decodeOpts buf ≠ .error .fuelExhausted := by
    unfold decodeOpts
    by_cases hl : buf.length < 2
    · rw [if_pos hl]; simp
    · rw [if_neg hl]
      dsimp only
      cases hscan : scanOpts (buf.drop 2) ((buf.getD 1 0 + 1) * 8 - 2)
          ((buf.getD 1 0 + 1) * 8 + 1) 0 with
      | error e =>
        have := scan_ne_fuelExhausted ((buf.getD 1 0 + 1) * 8 + 1) (buf.drop 2)
          ((buf.getD 1 0 + 1) * 8 - 2) 0 (by omega)
        rw [hscan] at this
        simpa using fun hcontra => this (by rw [hcontra])
      | ok o => simp
  unfold decodeExt
  by_cases h1 : c = 0 ∨ c = 60
  · rw [if_pos h1]; exact hopts
  · rw [if_neg h1]
    by_cases h2 : c = 43
    · rw [if_pos h2]
      unfold decodeRouting
      by_cases hl : buf.length < 8
      · rw [if_pos hl]; simp
      · rw [if_neg hl]; simp
    · rw [if_neg h2]
      by_cases h3 : c = 44
      · rw [if_pos h3]
        unfold decodeFragment
        by_cases hl : buf.length < 8
        · rw [if_pos hl]; simp
        · rw [if_neg hl]; simp
      · rw [if_neg h3]
        by_cases h4 : c = 51
        · rw [if_pos h4]
          unfold decodeAH
          by_cases hl : buf.length < 12
          · rw [if_pos hl]; simp
          · rw [if_neg hl]; simp
        · rw [if_neg h4]
          by_cases h5 : c = 50
          · rw [if_pos h5]
            unfold decodeESP
            by_cases hl : buf.length < 8
            · rw [if_pos hl]; simp
            · rw [if_neg hl]; simp
          · rw [if_neg h5]; simp

/-! ## Claim C3 -/

/-- C3 counterexample: the claim says every decoded header of a
recognized kind has a `next_header` field, that the walker continues
the chain with it, and that a recognized-kind header is never itself
treated as terminal.  ESP (protocol 50) is a recognized kind, yet its
decoded header exposes no `nxt` field, so `getattr(ext, 'nxt', None)`
yields `None` and the walk ends right after it with no terminal
protocol id. -/
theorem C3_counterexample :
    (50 : Nat) ∈ extHdrIds ∧
    walk 9 (some 50) [0, 0, 0, 1, 0, 0, 0, 2] =
      .ok ([(50, .esp 1 2 [] 8)], none, []) ∧
    (ExtHdr.esp 1 2 [] 8).nextHdr? = none := by
  decide

/-- C3 (amended): five of the six recognized kinds — Hop-by-Hop
Options, Routing, Fragment, Authentication, Destination Options —
decode a `next_header` field and the walker continues the chain with
its value; an ESP header decodes no `next_header`, so the walker treats
it as terminal: the chain ends after it with terminal id `None`. -/
theorem C3_chain_continuation :
    (∀ c ∈ ([0, 43, 44, 51, 60] : List Nat), ∀ (buf : Bytes) (ext : ExtHdr),
      decodeExt c buf = .ok ext → ∃ n, ext.nextHdr? = some n) ∧
    (∀ (buf : Bytes) (ext : ExtHdr), decodeExt 50 buf = .ok ext →
      ext.nextHdr? = none) ∧
    (∀ (fuel c : Nat) (buf : Bytes) (ext : ExtHdr), c ∈ extHdrIds →
      decodeExt c buf = .ok ext →
      walk (fuel + 1) (some c) buf =
        match walk fuel ext.nextHdr? (buf.drop ext.length) with
        | .error e => .error e
        | .ok (chain, t, rest) => .ok ((c, ext) :: chain, t, rest)) := by
  refine ⟨?_, ?_, ?_⟩
  · intro c hc buf ext h
    fin_cases hc
    · rw [(decodeExt_eq_of_id 0 buf).1 (Or.inl rfl)] at h
      obtain ⟨-, o, rfl⟩ := decodeOpts_ok buf ext h
      exact ⟨_, rfl⟩
    · rw [(decodeExt_eq_of_id 43 buf).2.1 rfl] at h
      obtain ⟨-, rfl⟩ := decodeRouting_ok buf ext h
      exact ⟨_, rfl⟩
    · rw [(decodeExt_eq_of_id 44 buf).2.2.1 rfl] at h
      obtain ⟨-, rfl⟩ := decodeFragment_ok buf ext h
      exact ⟨_, rfl⟩
    · rw [(decodeExt_eq_of_id 51 buf).2.2.2.1 rfl] at h
      obtain ⟨-, ad, rfl⟩ := decodeAH_ok buf ext h
      exact ⟨_, rfl⟩
    · rw [(decodeExt_eq_of_id 60 buf).1 (Or.inr rfl)] at h
      obtain ⟨-, o, rfl⟩ := decodeOpts_ok buf ext h
      exact ⟨_, rfl⟩
  · intro buf ext h
    rw [(decodeExt_eq_of_id 50 buf).2.2.2.2 rfl] at h
    obtain ⟨-, rfl⟩ := decodeESP_ok buf ext h
    rfl
  · intro fuel c buf ext hc h
    conv_lhs => rw [walk]
    simp only [if_pos hc, h]

/-- Witness for C3's amended theorem: a Destination Options header
continues the chain, and the walker step at a concrete Fragment
header. -/
theorem C3_witness :
    (∃ n, (ExtHdr.opts 59 0 [0, 0, 0, 0, 0, 0] [] 8).nextHdr? = some n) ∧
    walk 3 (some 44) [41, 0, 0, 1, 0, 0, 0, 0] =
      (match walk 2 (ExtHdr.fragment 41 0 1 0 8).nextHdr?
          (([41, 0, 0, 1, 0, 0, 0, 0] : Bytes).drop 8) with
       | .error e => .error e
       | .ok (chain, t, rest) => .ok ((44, ExtHdr.fragment 41 0 1 0 8) :: chain, t, rest)) :=
  ⟨C3_chain_continuation.1 60 (by decide) [59, 0, 0, 0, 0, 0, 0, 0]
      (ExtHdr.opts 59 0 [0, 0, 0, 0, 0, 0] [] 8) (by decide),
   C3_chain_continuation.2.2 2 44 [41, 0, 0, 1, 0, 0, 0, 0]
      (ExtHdr.fragment 41 0 1 0 8) (by decide) (by decide)⟩

/-! ## Claim C10 -/

/-- C10: every successful decode of a recognized extension header
computes a byte length of at least 8 from a buffer of at least 2 bytes,
so the remaining buffer strictly shrinks on every chain iteration; as a
consequence the chain walk never exhausts its fuel when given more fuel
than the buffer's length — the walk always terminates, ending either in
a result or in a decode error (`NeedData`/`IndexError`) for a buffer
too short for the next header. -/
theorem C10_termination :
    (∀ c ∈ extHdrIds, ∀ (buf : Bytes) (ext : ExtHdr), decodeExt c buf = .ok ext →
      8 ≤ ext.length ∧ 2 ≤ buf.length ∧ (buf.drop ext.length).length < buf.length) ∧
    (∀ (fuel : Nat) (cur : Option Nat) (buf : Bytes), buf.length < fuel →
      walk fuel cur buf ≠ .error .fuelExhausted) := by
  constructor
  · intro c _ buf ext h
    exact decode_shrinks c buf ext h
  · intro fuel
    induction fuel with
    | zero => intro cur buf h; omega
    | succ n ih =>
      intro cur buf h
      unfold walk
      cases cur with
      | none => simp
      | some c =>
        by_cases hc : c ∈ extHdrIds
        · simp only [if_pos hc]
          cases hdec : decodeExt c buf with
          | error e =>
            have hne := decodeExt_ne_fuelExhausted c buf
            rw [hdec] at hne
            have he : e ≠ .fuelExhausted := fun hh => hne (by rw [hh])
            simp only [hdec]
            simpa using he
          | ok ext =>
            simp only [hdec]
            have hlt : (buf.drop ext.length).length < n := by
              have := (decode_shrinks c buf ext hdec).2.2
              omega
            have hrec := ih ext.nextHdr? (buf.drop ext.length) hlt
            cases hw : walk n ext.nextHdr? (buf.drop ext.length) with
            | error e =>
              rw [hw] at hrec
              simp only [hw]
              exact hrec
            | ok r =>
              obtain ⟨chain, t, rest⟩ := r
              simp [hw]
        · simp [if_neg hc]

/-- Witness for C10: the Fragment decode at a concrete buffer shrinks
it, and a concrete walk with sufficient fuel does not exhaust it. -/
theorem C10_witness :
    8 ≤ (ExtHdr.fragment 41 0 1 0 8).length ∧
    2 ≤ ([41, 0, 0, 1, 0, 0, 0, 0] : Bytes).length ∧
    (([41, 0, 0, 1, 0, 0, 0, 0] : Bytes).drop (ExtHdr.fragment 41 0 1 0 8).length).length <
      ([41, 0, 0, 1, 0, 0, 0, 0] : Bytes).length ∧
    walk 9 (some 44) [41, 0, 0, 1, 0, 0, 0, 0] ≠ .error .fuelExhausted :=
  ⟨(C10_termination.1 44 (by decide) [41, 0, 0, 1, 0, 0, 0, 0]
      (ExtHdr.fragment 41 0 1 0 8) (by decide)).1,
   (C10_termination.1 44 (by decide) [41, 0, 0, 1, 0, 0, 0, 0]
      (ExtHdr.fragment 41 0 1 0 8) (by decide)).2.1,
   (C10_termination.1 44 (by decide) [41, 0, 0, 1, 0, 0, 0, 0]
      (ExtHdr.fragment 41 0 1 0 8) (by decide)).2.2,
   C10_termination.2 9 (some 44) [41, 0, 0, 1, 0, 0, 0, 0] (by decide)⟩

/-! ## Claim C8 -/

/-- C8: for every buffer that decodes successfully, the working region
handed to the chain walk is `buffer[40:40+plen]` when the payload
length field is non-zero, and everything after the 40-byte fixed header
when it is zero (the jumbogram sentinel) — in the sentinel case the
region is all remaining bytes, hence non-empty whenever any bytes
follow the fixed header. -/
theorem C8_region (reg : Registry) (buf : Bytes) (pkt : IP6)
    (h : ip6Unpack reg buf = .ok pkt) :
    40 ≤ buf.length ∧
    (pkt.plen ≠ 0 → ip6Region buf = (buf.drop 40).take pkt.plen) ∧
    (pkt.plen = 0 → ip6Region buf = buf.drop 40 ∧
      (40 < buf.length → ip6Region buf ≠ [])) ∧
    ∃ chain t rest,
      walk ((ip6Region buf).length + 1) (some pkt.nxt) (ip6Region buf) =
        .ok (chain, t, rest) ∧
      pkt.extension_hdrs = chain ∧ pkt.p = t ∧
      pkt.data = upperDecode reg t rest := by
  unfold ip6Unpack at h
  by_cases hl : buf.length < 40
  · rw [if_pos hl] at h
    cases h
  · rw [if_neg hl] at h
    dsimp only at h
    cases hw : walk ((ip6Region buf).length + 1) (some (buf.getD 6 0))
        (ip6Region buf) with
    | error e => rw [hw] at h; cases h
    | ok r =>
      obtain ⟨chain, t, rest⟩ := r
      rw [hw] at h
      cases h
      refine ⟨by omega, ?_, ?_, chain, t, rest, hw, rfl, rfl, rfl⟩
      · intro hp
        simp only at hp
        unfold ip6Region
        rw [if_pos hp]
      · intro hp
        simp only at hp
        have hr : ip6Region buf = buf.drop 40 := by
          unfold ip6Region
          rw [if_neg (by simpa using hp)]
        refine ⟨hr, fun h40 => ?_⟩
        rw [hr]
        simp only [ne_eq, List.drop_eq_nil_iff]
        omega

/-- Witness for C8 at the concrete Fragment-header packet. -/
theorem C8_witness :
    40 ≤ exFrag.length ∧
    (exFragPkt.plen ≠ 0 → ip6Region exFrag = (exFrag.drop 40).take exFragPkt.plen) ∧
    (exFragPkt.plen = 0 → ip6Region exFrag = exFrag.drop 40 ∧
      (40 < exFrag.length → ip6Region exFrag ≠ [])) ∧
    ∃ chain t rest,
      walk ((ip6Region exFrag).length + 1) (some exFragPkt.nxt) (ip6Region exFrag) =
        .ok (chain, t, rest) ∧
      exFragPkt.extension_hdrs = chain ∧ exFragPkt.p = t ∧
      exFragPkt.data = upperDecode emptyReg t rest :=
  C8_region emptyReg exFrag exFragPkt (by decide)

/-! ## Claim C9 -/

/-- C9: when the chain walk completes and the registry has no decoder
for the terminal protocol id (including the `None` id left by an ESP
header), or the matched decoder fails, the packet's payload is the
remaining bytes verbatim and decode still returns a complete packet
object — no error surfaces. -/
theorem C9_raw_fallback (reg : Registry) (buf : Bytes)
    (chain : List (Nat × ExtHdr)) (t : Option Nat) (rest : Bytes)
    (hlen : 40 ≤ buf.length)
    (hwalk : walk ((ip6Region buf).length + 1) (some (buf.getD 6 0))
      (ip6Region buf) = .ok (chain, t, rest))
    (hmiss : ∀ id, t = some id →
      reg id = none ∨ ∃ dec, reg id = some dec ∧ dec rest = none) :
    ∃ pkt, ip6Unpack reg buf = .ok pkt ∧ pkt.data = .raw rest ∧
      pkt.extension_hdrs = chain ∧ pkt.p = t := by
  have hdata : upperDecode reg t rest = .raw rest := by
    cases t with
    | none => rfl
    | some id =>
      rcases hmiss id rfl with hmr | ⟨dec, hdec, hfail⟩
      · simp only [upperDecode, hmr]
      · simp only [upperDecode, hdec, hfail]
  refine ⟨{ v_fc_flow := rd32 buf 0, plen := rd16 buf 4, nxt := buf.getD 6 0,
            hlim := buf.getD 7 0, src := (buf.drop 8).take 16,
            dst := (buf.drop 24).take 16, extension_hdrs := chain, p := t,
            data := upperDecode reg t rest }, ?_, hdata, rfl, rfl⟩
  unfold ip6Unpack
  rw [if_neg (by omega)]
  dsimp only
  rw [hwalk]

/-- Witness for C9: decoding the Fragment-header packet against the
empty registry stores the remaining eight bytes verbatim. -/
theorem C9_witness :
    ∃ pkt, ip6Unpack emptyReg exFrag = .ok pkt ∧
      pkt.data = .raw [96, 0, 0, 0, 0, 16, 44, 0] ∧
      pkt.extension_hdrs = [(44, .fragment 41 0 1 0 8)] ∧ pkt.p = some 41 :=
  C9_raw_fallback emptyReg exFrag [(44, .fragment 41 0 1 0 8)] (some 41)
    [96, 0, 0, 0, 0, 16, 44, 0] (by decide) (by decide)
    (fun _ _ => Or.inl rfl)

/-! ## Claim C1 -/

/-- C1 counterexample: the claim says the encode-time checksum is
computed over a pseudo-header carrying the **upper-layer protocol id**.
The code packs `self.nxt` instead.  On a packet whose upper layer is
TCP(6) behind a Fragment header (`nxt = 44`) with payload checksum 0,
the code writes 65489 (pseudo-header protocol byte 44) where the
spec's formula — `specChecksum`, built verbatim from the spec's words
with the upper-layer protocol id — yields 65527. -/
theorem C1_counterexample :
    c1pkt.p = some 6 ∧ c1pkt.nxt = 44 ∧ paySum c1pkt.data = some 0 ∧
    ip6Fixup c1pkt = .ok { c1pkt with data := .obj 65489 [] [] } ∧
    specChecksum c1pkt = some 65527 ∧
    paySum (Payload.obj 65489 [] []) ≠ specChecksum c1pkt := by
  decide

/-- C1 (amended): for every packet whose `upper_layer_protocol` is
TCP(6), UDP(17) or ICMPv6(58) and whose payload checksum field reads
zero, encode computes the one's-complement checksum over the
pseudo-header `(src, dst, zero byte, `nxt`, big-endian serialized
payload length)` concatenated with the serialized payload and writes it
into the payload's checksum field — the pseudo-header carries the fixed
header's `next_header` field, which coincides with the upper-layer
protocol id exactly when no extension headers intervene, in which case
the written value equals the spec's prescribed checksum. -/
theorem C1_checksum_uses_nxt (pkt : IP6) (t : Nat) (pre post : Bytes)
    (hp : pkt.p = some t) (ht : t = 6 ∨ t = 17 ∨ t = 58)
    (hd : pkt.data = .obj 0 pre post)
    (hn : pkt.nxt < 256) (hl : (payBytes pkt.data).length < 65536) :
    ∃ ph ck, pseudoHdrBytes pkt.src pkt.dst pkt.nxt (payBytes pkt.data).length = some ph ∧
      ck = in_cksum_done (in_cksum_add (in_cksum_add 0 ph) (payBytes pkt.data)) ∧
      ip6Fixup pkt = .ok { pkt with data := payWriteSum pkt.data ck } ∧
      paySum (payWriteSum pkt.data ck) = some ck ∧
      (pkt.nxt = t → specChecksum pkt = some ck) := by
  have hph : pseudoHdrBytes pkt.src pkt.dst pkt.nxt (payBytes pkt.data).length =
      some (pack16s pkt.src ++ pack16s pkt.dst ++ [0, pkt.nxt] ++
        encH (payBytes pkt.data).length) := by
    unfold pseudoHdrBytes
    rw [if_pos ⟨hn, hl⟩]
  refine ⟨_, _, hph, rfl, ?_, ?_, ?_⟩
  · unfold ip6Fixup
    rw [hd] at hph ⊢
    rw [hp]
    dsimp only
    rw [if_pos ht]
    dsimp only [paySum]
    rw [if_pos rfl]
    rw [hph]
  · rw [hd]
    rfl
  · intro hnt
    unfold specChecksum
    rw [hp]
    dsimp only
    rw [← hnt, hph]
    rfl

/-- Witness for C1's amended theorem at a concrete extension-header-free
TCP packet with zero checksum. -/
theorem C1_witness :
    ∃ ph ck, pseudoHdrBytes c1pkt2.src c1pkt2.dst c1pkt2.nxt
        (payBytes c1pkt2.data).length = some ph ∧
      ck = in_cksum_done (in_cksum_add (in_cksum_add 0 ph) (payBytes c1pkt2.data)) ∧
      ip6Fixup c1pkt2 = .ok { c1pkt2 with data := payWriteSum c1pkt2.data ck } ∧
      paySum (payWriteSum c1pkt2.data ck) = some ck ∧
      (c1pkt2.nxt = 6 → specChecksum c1pkt2 = some ck) :=
  C1_checksum_uses_nxt c1pkt2 6 [0, 80, 0, 80] [1, 2] rfl (Or.inl rfl) rfl
    (by decide) (by decide)

/-! ## Emission lemmas for the round-trip claim -/

/-- A decoded Fragment header re-serializes to exactly the eight bytes
it consumed. -/
lemma frag_emit (buf : Bytes) (hb : ∀ x ∈ buf, x < 256) (ext : ExtHdr)
    (h : decodeFragment buf = .ok ext) :
    extHdrBytes ext = some (buf.take ext.length) := by
  obtain ⟨hl, rfl⟩ := decodeFragment_ok buf ext h
  have h0 := getD_lt_256 buf hb 0 (by omega)
  have h1 := getD_lt_256 buf hb 1 (by omega)
  have h2 := getD_lt_256 buf hb 2 (by omega)
  have h3 := getD_lt_256 buf hb 3 (by omega)
  have h4 := getD_lt_256 buf hb 4 (by omega)
  have h5 := getD_lt_256 buf hb 5 (by omega)
  have h6 := getD_lt_256 buf hb 6 (by omega)
  have h7 := getD_lt_256 buf hb 7 (by omega)
  have hH : rd16 buf 2 < 65536 := by
    unfold rd16
    have h3a : buf.getD (2 + 1) 0 < 256 := h3
    omega
  have hI : rd32 buf 4 < 4294967296 := by
    unfold rd32
    have h5a : buf.getD (4 + 1) 0 < 256 := h5
    have h6a : buf.getD (4 + 2) 0 < 256 := h6
    have h7a : buf.getD (4 + 3) 0 < 256 := h7
    omega
  have heH : encH (rd16 buf 2) = [buf.getD 2 0, buf.getD 3 0] := by
    unfold rd16
    exact encH_bytes _ _ h2 h3
  have heI : encI (rd32 buf 4) = [buf.getD 4 0, buf.getD 5 0, buf.getD 6 0, buf.getD 7 0] := by
    unfold rd32
    exact encI_bytes _ _ _ _ h4 h5 h6 h7
  simp only [extHdrBytes, packB, packH, packI, if_pos h0, if_pos h1, if_pos hH,
    if_pos hI, Option.bind_some, Option.some_bind, ExtHdr.length]
  rw [heH, heI, take_eight buf (by omega)]
  rfl

/-- A decoded Routing header with an even `len` field re-serializes to
exactly the `len * 8 + 8`-byte prefix of the buffer it consumed. -/
lemma routing_emit (buf : Bytes) (hb : ∀ x ∈ buf, x < 256) (ext : ExtHdr)
    (h : decodeRouting buf = .ok ext) (hg : goodHdr ext = true) :
    extHdrBytes ext = some (buf.take ext.length) := by
  obtain ⟨hl, rfl⟩ := decodeRouting_ok buf ext h
  simp only [goodHdr, beq_iff_eq] at hg
  have h0 := getD_lt_256 buf hb 0 (by omega)
  have h1 := getD_lt_256 buf hb 1 (by omega)
  have h2 := getD_lt_256 buf hb 2 (by omega)
  have h3 := getD_lt_256 buf hb 3 (by omega)
  have h4 := getD_lt_256 buf hb 4 (by omega)
  have h5 := getD_lt_256 buf hb 5 (by omega)
  have h6 := getD_lt_256 buf hb 6 (by omega)
  have h7 := getD_lt_256 buf hb 7 (by omega)
  have hI : rd32 buf 4 < 4294967296 := by
    unfold rd32
    have h5a : buf.getD (4 + 1) 0 < 256 := h5
    have h6a : buf.getD (4 + 2) 0 < 256 := h6
    have h7a : buf.getD (4 + 3) 0 < 256 := h7
    omega
  have heI : encI (rd32 buf 4) = [buf.getD 4 0, buf.getD 5 0, buf.getD 6 0, buf.getD 7 0] := by
    unfold rd32
    exact encI_bytes _ _ _ _ h4 h5 h6 h7
  simp only [extHdrBytes, packB, packI, if_pos h0, if_pos h1, if_pos h2,
    if_pos h3, if_pos hI, Option.bind_some, Option.some_bind, ExtHdr.length]
  rw [heI]
  have hsplit : buf.take (buf.getD 1 0 * 8 + 8) =
      buf.take 8 ++ (buf.drop 8).take (buf.getD 1 0 / 2 * 16) := by
    have heq : buf.getD 1 0 * 8 + 8 = 8 + buf.getD 1 0 / 2 * 16 := by omega
    rw [heq, List.take_add]
  rw [hsplit, take_eight buf (by omega)]
  rfl

/-- Every decoded header satisfying `goodHdr` re-serializes to exactly
the `length`-byte prefix of the buffer it consumed. -/
lemma good_emit (c : Nat) (buf : Bytes) (ext : ExtHdr)
    (hb : ∀ x ∈ buf, x < 256) (h : decodeExt c buf = .ok ext)
    (hg : goodHdr ext = true) :
    extHdrBytes ext = some (buf.take ext.length) := by
  unfold decodeExt at h
  by_cases h1 : c = 0 ∨ c = 60
  · rw [if_pos h1] at h
    obtain ⟨-, o, rfl⟩ := decodeOpts_ok buf ext h
    simp [goodHdr] at hg
  · rw [if_neg h1] at h
    by_cases h2 : c = 43
    · rw [if_pos h2] at h
      exact routing_emit buf hb ext h hg
    · rw [if_neg h2] at h
      by_cases h3 : c = 44
      · rw [if_pos h3] at h
        exact frag_emit buf hb ext h
      · rw [if_neg h3] at h
        by_cases h4 : c = 51
        · rw [if_pos h4] at h
          obtain ⟨-, ad, rfl⟩ := decodeAH_ok buf ext h
          simp [goodHdr] at hg
        · rw [if_neg h4] at h
          by_cases h5 : c = 50
          · rw [if_pos h5] at h
            obtain ⟨-, rfl⟩ := decodeESP_ok buf ext h
            simp [goodHdr] at hg
          · rw [if_neg h5] at h
            cases h

/-- The bytes emitted for a chain of `goodHdr` headers, in wire order,
concatenated with the remaining buffer, give back the walked buffer. -/
lemma walk_emit :
    ∀ (fuel : Nat) (cur : Option Nat) (buf : Bytes)
      (chain : List (Nat × ExtHdr)) (t : Option Nat) (rest : Bytes),
      walk fuel cur buf = .ok (chain, t, rest) →
      (∀ x ∈ buf, x < 256) →
      (∀ q ∈ chain, goodHdr q.2 = true) →
      ∃ cb, chainBytes chain = some cb ∧ cb ++ rest = buf := by
  intro fuel
  induction fuel with
  | zero =>
    intro cur buf chain t rest h
    cases h
  | succ n ih =>
    intro cur buf chain t rest h hb hg
    unfold walk at h
    cases cur with
    | none =>
      cases h
      exact ⟨[], rfl, rfl⟩
    | some c =>
      by_cases hc : c ∈ extHdrIds
      · simp only [if_pos hc] at h
        cases hdec : decodeExt c buf with
        | error e =>
          rw [hdec] at h
          cases h
        | ok ext =>
          rw [hdec] at h
          dsimp only at h
          cases hw : walk n ext.nextHdr? (buf.drop ext.length) with
          | error e =>
            rw [hw] at h
            cases h
          | ok r =>
            obtain ⟨chain2, t2, rest2⟩ := r
            rw [hw] at h
            dsimp only at h
            cases h
            have hbdrop : ∀ x ∈ buf.drop ext.length, x < 256 :=
              fun x hx => hb x (List.drop_subset _ _ hx)
            have hg2 : ∀ q ∈ chain2, goodHdr q.2 = true :=
              fun q hq => hg q (List.mem_cons_of_mem _ hq)
            obtain ⟨cb2, hcb2, happ⟩ :=
              ih ext.nextHdr? (buf.drop ext.length) chain2 _ _ hw hbdrop hg2
            have hemit := good_emit c buf ext hb hdec
              (hg (c, ext) (List.mem_cons_self _ _))
            refine ⟨buf.take ext.length ++ cb2, ?_, ?_⟩
            · unfold chainBytes
              rw [hemit, hcb2]
              rfl
            · rw [List.append_assoc, happ, List.take_append_drop]
      · simp only [if_neg hc] at h
        cases h
        exact ⟨[], rfl, rfl⟩

/-- Lookup of an absent key is `none`. -/
lemma dictLookup_not_mem (hdrs : List (Nat × ExtHdr)) (k : Nat)
    (h : k ∉ hdrs.map Prod.fst) : dictLookup hdrs k = none := by
  induction hdrs with
  | nil => rfl
  | cons p rest ih =>
    obtain ⟨k2, v⟩ := p
    simp only [List.map_cons, List.mem_cons] at h
    push_neg at h
    unfold dictLookup
    rw [ih h.2, if_neg (fun he => h.1 he.symm)]

/-- Lookup skips a leading entry with a different key. -/
lemma dictLookup_cons_ne (k2 : Nat) (v : ExtHdr) (hdrs : List (Nat × ExtHdr))
    (k : Nat) (h : k ≠ k2) :
    dictLookup ((k2, v) :: hdrs) k = dictLookup hdrs k := by
  conv_lhs => rw [dictLookup]
  cases hl : dictLookup hdrs k with
  | some r => rfl
  | none => rw [if_neg (fun he => h he.symm)]

/-- `headers_str` of an empty dict is empty. -/
lemma headersStrAux_nil (ids : List Nat) : headersStrAux ids [] = some [] := by
  induction ids with
  | nil => rfl
  | cons i rest ih =>
    unfold headersStrAux
    exact ih

/-- An entry whose key none of the ids mention does not change the
emission. -/
lemma headersStrAux_skip (ids : List Nat) (k : Nat) (e : ExtHdr)
    (hdrs : List (Nat × ExtHdr)) (hk : k ∉ ids) :
    headersStrAux ids ((k, e) :: hdrs) = headersStrAux ids hdrs := by
  induction ids with
  | nil => rfl
  | cons i rest ih =>
    simp only [List.mem_cons] at hk
    push_neg at hk
    unfold headersStrAux
    rw [dictLookup_cons_ne k e hdrs i (fun he => hk.1 he.symm), ih hk.2]

/-- When the dict's keys are a subsequence of the emission order (thus
without duplicates), emitting by that order equals emitting in wire
order. -/
lemma headersStrAux_eq_chain :
    ∀ (ids : List Nat) (hdrs : List (Nat × ExtHdr)), ids.Nodup →
      (hdrs.map Prod.fst).Sublist ids →
      headersStrAux ids hdrs = chainBytes hdrs := by
  intro ids
  induction ids with
  | nil =>
    intro hdrs _ hsub
    rw [List.sublist_nil_iff_eq_nil] at hsub
    cases hdrs with
    | nil => rfl
    | cons p rest => simp at hsub
  | cons i rest ih =>
    intro hdrs hnd hsub
    cases hdrs with
    | nil => rw [headersStrAux_nil]; rfl
    | cons p hdrs2 =>
      obtain ⟨k, e⟩ := p
      rw [List.map_cons, List.sublist_cons_iff] at hsub
      rcases hsub with h | ⟨l, he, hs⟩
      · have hnotin : i ∉ ((k, e) :: hdrs2).map Prod.fst := fun hmem =>
          (List.nodup_cons.mp hnd).1 (h.subset hmem)
        unfold headersStrAux
        rw [dictLookup_not_mem _ i hnotin]
        exact ih ((k, e) :: hdrs2) (List.nodup_cons.mp hnd).2 h
      · obtain ⟨hki, hml⟩ : k = i ∧ hdrs2.map Prod.fst = l := by
          cases he
          exact ⟨rfl, rfl⟩
        subst hki
        rw [← hml] at hs
        have hk2 : k ∉ hdrs2.map Prod.fst := fun hmem =>
          (List.nodup_cons.mp hnd).1 (hs.subset hmem)
        have hlk : dictLookup ((k, e) :: hdrs2) k = some e := by
          conv_lhs => rw [dictLookup]
          rw [dictLookup_not_mem hdrs2 k hk2, if_pos rfl]
        unfold headersStrAux
        rw [hlk, headersStrAux_skip rest k e hdrs2 (List.nodup_cons.mp hnd).1,
          ih hdrs2 (List.nodup_cons.mp hnd).2 hs]
        rfl

/-- The fixed header packed from the fields the decoder read out of a
byte buffer is that buffer's 40-byte prefix. -/
lemma ip6PackHdr_decode (b : Bytes) (hb : ∀ x ∈ b, x < 256)
    (hl : 40 ≤ b.length) (hdrs : List (Nat × ExtHdr)) (p : Option Nat)
    (data : Payload) :
    ip6PackHdr { v_fc_flow := rd32 b 0, plen := rd16 b 4, nxt := b.getD 6 0,
                 hlim := b.getD 7 0, src := (b.drop 8).take 16,
                 dst := (b.drop 24).take 16, extension_hdrs := hdrs, p := p,
                 data := data } = some (b.take 40) := by
  have h0 := getD_lt_256 b hb 0 (by omega)
  have h1 := getD_lt_256 b hb 1 (by omega)
  have h2 := getD_lt_256 b hb 2 (by omega)
  have h3 := getD_lt_256 b hb 3 (by omega)
  have h4 := getD_lt_256 b hb 4 (by omega)
  have h5 := getD_lt_256 b hb 5 (by omega)
  have h6 := getD_lt_256 b hb 6 (by omega)
  have h7 := getD_lt_256 b hb 7 (by omega)
  have hI : rd32 b 0 < 4294967296 := by
    unfold rd32
    have h1a : b.getD (0 + 1) 0 < 256 := h1
    have h2a : b.getD (0 + 2) 0 < 256 := h2
    have h3a : b.getD (0 + 3) 0 < 256 := h3
    omega
  have hH : rd16 b 4 < 65536 := by
    unfold rd16
    have h5a : b.getD (4 + 1) 0 < 256 := h5
    omega
  have heI : encI (rd32 b 0) = [b.getD 0 0, b.getD 1 0, b.getD 2 0, b.getD 3 0] := by
    unfold rd32
    exact encI_bytes _ _ _ _ h0 h1 h2 h3
  have heH : encH (rd16 b 4) = [b.getD 4 0, b.getD 5 0] := by
    unfold rd16
    exact encH_bytes _ _ h4 h5
  have hsrc : pack16s ((b.drop 8).take 16) = (b.drop 8).take 16 :=
    pack16s_of_length _ (by simp [List.length_take, List.length_drop]; omega)
  have hdst : pack16s ((b.drop 24).take 16) = (b.drop 24).take 16 :=
    pack16s_of_length _ (by simp [List.length_take, List.length_drop]; omega)
  simp only [ip6PackHdr, packI, packH, packB, if_pos hI, if_pos hH, if_pos h6,
    if_pos h7, Option.bind_some, Option.some_bind]
  rw [heI, heH, hsrc, hdst, take40_decomp b, take_eight b (by omega)]
  rfl

/-- The checksum fix-up is a no-op when the upper-layer protocol is not
TCP/UDP/ICMPv6. -/
lemma fixup_skip (pkt : IP6) (t : Nat) (hp : pkt.p = some t)
    (hterm : ¬(t = 6 ∨ t = 17 ∨ t = 58)) : ip6Fixup pkt = .ok pkt := by
  unfold ip6Fixup
  rw [hp]
  dsimp only
  rw [if_neg hterm]

/-! ## Claim C2 -/

/-- C2 counterexample: the claim says every successfully decoding
buffer whose extension headers are in canonical wire order re-encodes
to itself.  `exBad` decodes successfully, carries a single Hop-by-Hop
Options header (trivially in canonical order, and its kind sequence is
a subsequence of the canonical id list), yet re-encoding emits the
Options header's untrimmed 14-byte `data` (which already contains the
upper-layer payload) followed by the payload again: the result is 64
bytes, not the original 56. -/
theorem C2_counterexample :
    ip6Unpack emptyReg exBad = .ok exBadPkt ∧
    ((exBadPkt.extension_hdrs.map Prod.fst).Sublist extHdrIds) ∧
    roundTrip emptyReg exBad =
      .ok ([96, 0, 0, 0, 0, 16, 0, 64] ++ List.replicate 16 0 ++
        List.replicate 16 0 ++ [59, 0, 1, 4, 0, 0, 0, 0] ++
        [1, 2, 3, 4, 5, 6, 7, 8] ++ [1, 2, 3, 4, 5, 6, 7, 8]) ∧
    roundTrip emptyReg exBad ≠ .ok exBad := by
  refine ⟨by decide, by decide, by decide, by decide⟩

/-- C2 (amended): decode-then-encode is the identity on buffers all of
whose decoded extension headers re-serialize to exactly the bytes they
consumed — Fragment headers, and Routing headers with even `len` — in
canonical wire order (kind sequence a subsequence of the canonical
order, hence no duplicate kinds), provided the byte count matches the
payload-length field (or the field is the jumbogram sentinel 0), the
upper layer is left raw (empty registry) and its protocol id is not
TCP/UDP/ICMPv6 (whose checksum fix-up would otherwise mutate or reject
the raw payload).  Options, AH and ESP headers keep the rest of the
working region as their `data` and re-emit it wholesale, so buffers
containing them in front of further content do not round-trip. -/
theorem C2_roundtrip_canonical (b : Bytes) (chain : List (Nat × ExtHdr))
    (t : Nat) (rest : Bytes)
    (hb : ∀ x ∈ b, x < 256)
    (hlen : 40 ≤ b.length)
    (hplen : rd16 b 4 = 0 ∨ b.length = 40 + rd16 b 4)
    (hwalk : walk ((ip6Region b).length + 1) (some (b.getD 6 0))
      (ip6Region b) = .ok (chain, some t, rest))
    (hterm : ¬(t = 6 ∨ t = 17 ∨ t = 58))
    (hsub : (chain.map Prod.fst).Sublist extHdrIds)
    (hgood : ∀ q ∈ chain, goodHdr q.2 = true) :
    ∃ pkt, ip6Unpack emptyReg b = .ok pkt ∧ ip6Bytes pkt = .ok b := by
  have hreg : ip6Region b = b.drop 40 := by
    unfold ip6Region
    by_cases hz : rd16 b 4 ≠ 0
    · rw [if_pos hz]
      apply List.take_of_length_le
      rcases hplen with h0 | hexact
      · exact absurd h0 hz
      · simp only [List.length_drop]
        omega
    · rw [if_neg hz]
  have hb40 : ∀ x ∈ b.drop 40, x < 256 := fun x hx =>
    hb x (List.drop_subset _ _ hx)
  have hwalk40 : walk ((b.drop 40).length + 1) (some (b.getD 6 0))
      (b.drop 40) = .ok (chain, some t, rest) := by
    rw [← hreg]
    exact hwalk
  obtain ⟨cb, hcb, happ⟩ :=
    walk_emit _ _ _ _ _ _ hwalk40 hb40 hgood
  refine ⟨{ v_fc_flow := rd32 b 0, plen := rd16 b 4, nxt := b.getD 6 0,
            hlim := b.getD 7 0, src := (b.drop 8).take 16,
            dst := (b.drop 24).take 16, extension_hdrs := chain,
            p := some t, data := .raw rest }, ?_, ?_⟩
  · unfold ip6Unpack
    rw [if_neg (by omega)]
    dsimp only
    rw [hwalk]
    rfl
  · have hhdr := ip6PackHdr_decode b hb hlen chain (some t) (.raw rest)
    have hhs : headersStr chain = some cb := by
      unfold headersStr
      rw [headersStrAux_eq_chain extHdrIds chain (by decide) hsub, hcb]
    unfold ip6Bytes
    rw [fixup_skip _ t rfl hterm]
    dsimp only [Except.bind]
    unfold ip6Emit
    rw [hhdr, hhs]
    dsimp only [payBytes]
    rw [List.append_assoc, happ, List.take_append_drop]

/-- Witness for C2's amended theorem at the Fragment-header test
packet. -/
theorem C2_witness :
    ∃ pkt, ip6Unpack emptyReg exFrag = .ok pkt ∧ ip6Bytes pkt = .ok exFrag :=
  C2_roundtrip_canonical exFrag [(44, .fragment 41 0 1 0 8)] 41
    [96, 0, 0, 0, 0, 16, 44, 0] (by decide) (by decide) (by decide)
    (by decide) (by decide) (by decide) (by decide)

end DpktIP6
